import Mathlib

/-!
Shallow embedding of `zbus/src/message_fields.rs`.

The module under study has three components:
* `MessageFields` — an ordered collection of header field entries;
* `FieldPos` — a byte range into a message buffer, with two sentinel
  encodings, `(0, 0)` for "not cached / unresolved" and `(1, 0)` for
  "confirmed not present";
* `QuickMessageFields` — a per-message cache of `FieldPos` values for the
  hot header fields (path, interface, member) plus an eagerly cached
  reply-serial.

Machine-level details are modelled explicitly: a byte buffer carries its
base address (a natural number standing for the `as_ptr() as usize`
value), a borrowed `&str` is a `StrView` carrying its own address and its
UTF-8 bytes, `usize::checked_sub` and `u32::try_from` are partial
functions on `Nat`, and the two `panic` sites of `FieldPos::read` (slice
out of bounds, `.expect` on `from_utf8`) are distinguished result
constructors.  The `usize` addition `offset + field_buf.len()` cannot
overflow for genuine slices (both ranges live inside the address space),
so plain `Nat` addition is faithful there.
-/

namespace Zbus

/-- A `&[u8]` message buffer: base address plus byte contents. -/
structure ByteBuf where
  addr : Nat
  data : List Nat
deriving DecidableEq, Repr

/-- A borrowed `&str`: base address plus its UTF-8 bytes. -/
structure StrView where
  addr : Nat
  bytes : List Nat
deriving DecidableEq, Repr

/-- `l[s..e]`: the half-open byte range of a list. -/
def slice (l : List Nat) (s e : Nat) : List Nat :=
  (l.drop s).take (e - s)

/-- `lo ≤ b ≤ hi`, as a boolean. -/
def inRange (lo hi b : Nat) : Bool :=
  decide (lo ≤ b ∧ b ≤ hi)

/-- A UTF-8 continuation byte. -/
def isCont (b : Nat) : Bool :=
  inRange 0x80 0xBF b

/-- The standard UTF-8 well-formedness check on a byte sequence (the check
performed by `std::str::from_utf8`), including overlong and surrogate
rejection. -/
def validUtf8 : List Nat → Bool
  | [] => true
  | b :: rest =>
    if b ≤ 0x7F then validUtf8 rest
    else if inRange 0xC2 0xDF b then
      match rest with
      | c1 :: rest2 => isCont c1 && validUtf8 rest2
      | [] => false
    else if b = 0xE0 then
      match rest with
      | c1 :: c2 :: rest2 => inRange 0xA0 0xBF c1 && isCont c2 && validUtf8 rest2
      | _ => false
    else if inRange 0xE1 0xEC b || inRange 0xEE 0xEF b then
      match rest with
      | c1 :: c2 :: rest2 => isCont c1 && isCont c2 && validUtf8 rest2
      | _ => false
    else if b = 0xED then
      match rest with
      | c1 :: c2 :: rest2 => inRange 0x80 0x9F c1 && isCont c2 && validUtf8 rest2
      | _ => false
    else if b = 0xF0 then
      match rest with
      | c1 :: c2 :: c3 :: rest2 =>
          inRange 0x90 0xBF c1 && isCont c2 && isCont c3 && validUtf8 rest2
      | _ => false
    else if inRange 0xF1 0xF3 b then
      match rest with
      | c1 :: c2 :: c3 :: rest2 =>
          isCont c1 && isCont c2 && isCont c3 && validUtf8 rest2
      | _ => false
    else if b = 0xF4 then
      match rest with
      | c1 :: c2 :: c3 :: rest2 =>
          inRange 0x80 0x8F c1 && isCont c2 && isCont c3 && validUtf8 rest2
      | _ => false
    else false

/-- `std::str::from_utf8`: revalidates the bytes and returns the same bytes
viewed as text, or fails. -/
def fromUtf8 (bs : List Nat) : Option (List Nat) :=
  if validUtf8 bs then some bs else none

/-- `usize::checked_sub`. -/
def checked_sub (a b : Nat) : Option Nat :=
  if b ≤ a then some (a - b) else none

/-- `u32::try_from(n).ok()` on a non-negative value: succeeds iff `n` fits
in 32 bits. -/
def toU32? (n : Nat) : Option Nat :=
  if n < 2 ^ 32 then some n else none

/-- The result of `FieldPos::read`.  Rust distinguishes a returned
`Err` from a panic; the two panic sites (slice out of bounds, `.expect` on
`from_utf8`) are modelled as distinct outcomes. -/
inductive ReadResult (ε τ : Type) where
  | ok : Option τ → ReadResult ε τ
  | err : ε → ReadResult ε τ
  | sliceFault : ReadResult ε τ
  | utf8Fault : ReadResult ε τ
deriving DecidableEq, Repr

/-- Instrumentation of one `read` call: how many times the fallback
closure was invoked and how many times the buffer was sliced. -/
structure ReadTrace where
  fallbackCalls : Nat
  bufferReads : Nat
deriving DecidableEq, Repr

/-- Embeds the fallback closure's `Result<Option<T>>` into a read outcome,
unchanged. -/
def liftExcept {ε τ : Type} : Except ε (Option τ) → ReadResult ε τ
  | .ok v => .ok v
  | .error e => .err e

/-- `T::try_from(s).map(Some).map_err(Into::into)`. -/
def liftConv {ε τ : Type} : Except ε τ → ReadResult ε τ
  | .ok t => .ok (some t)
  | .error e => .err e

/-- A byte range of a field in a Message, used in `QuickMessageFields`.
Some invalid encodings (`stop = 0`) indicate "not cached" and
"not present".  The source's fields are `start`/`end`; `end` is a Lean
keyword, so the second field is named `stop`. -/
structure FieldPos where
  start : Nat
  stop : Nat
deriving DecidableEq, Repr

def FieldPos.new_unknown : FieldPos := ⟨0, 0⟩

def FieldPos.new_not_present : FieldPos := ⟨1, 0⟩

/-- `FieldPos::build`: address arithmetic plus bounds and width checks. -/
def FieldPos.build (msg_buf : ByteBuf) (field_buf : StrView) : Option FieldPos := do
  let offset ← checked_sub field_buf.addr msg_buf.addr
  if offset ≤ msg_buf.data.length ∧ offset + field_buf.bytes.length ≤ msg_buf.data.length then
    let s ← toU32? offset
    let e ← toU32? (offset + field_buf.bytes.length)
    some ⟨s, e⟩
  else
    none

/-- `FieldPos::new`: absent optional field gives the not-present sentinel;
a present field delegates to `build`, falling back to the unknown sentinel
on failure. -/
def FieldPos.new (msg_buf : ByteBuf) (field : Option StrView) : FieldPos :=
  match field with
  | some value => (FieldPos.build msg_buf value).getD FieldPos.new_unknown
  | none => FieldPos.new_not_present

/-- `FieldPos::read`: reassemble a previously cached field, or generate it
with the fallback closure.  The conversion `conv` models `T::try_from` on
the reconstructed `&str` (which aliases the buffer, hence carries the
buffer-derived address).  The fallback closure is modelled by its result;
the trace records invocation counts. -/
def FieldPos.read {ε τ : Type} (p : FieldPos) (msg_buf : ByteBuf)
    (conv : StrView → Except ε τ) (fallback : Except ε (Option τ)) :
    ReadResult ε τ × ReadTrace :=
  match p with
  | ⟨0, 0⟩ => (liftExcept fallback, ⟨1, 0⟩)
  | ⟨1, 0⟩ => (.ok none, ⟨0, 0⟩)
  | ⟨s, e⟩ =>
    if s ≤ e ∧ e ≤ msg_buf.data.length then
      match fromUtf8 (slice msg_buf.data s e) with
      | some bs => (liftConv (conv ⟨msg_buf.addr + s, bs⟩), ⟨0, 1⟩)
      | none => (.utf8Fault, ⟨0, 1⟩)
    else
      (.sliceFault, ⟨0, 1⟩)

/-- Modelled from the spec: the header field codes of the wire protocol
(`MessageFieldCode`, external to the file under study): "a tagged variant,
one case per field code (path, interface, member, error name, destination,
sender, signature, unix-fd-count, reply-correlation-id)". -/
inductive MessageFieldCode where
  | path
  | interface
  | member
  | errorName
  | replySerial
  | destination
  | sender
  | signature
  | unixFDs
deriving DecidableEq, Repr

/-- Modelled from the spec: a header field entry (`MessageField`, external
to the file under study): a tagged variant, one case per field code, each
carrying a strongly typed value; exposes its field code. -/
inductive MessageField where
  | path (v : String)
  | interface (v : String)
  | member (v : String)
  | errorName (v : String)
  | replySerial (v : Nat)
  | destination (v : String)
  | sender (v : String)
  | signature (v : String)
  | unixFDs (v : Nat)
deriving DecidableEq, Repr

/-- `MessageField::code`. -/
def MessageField.code : MessageField → MessageFieldCode
  | .path _ => .path
  | .interface _ => .interface
  | .member _ => .member
  | .errorName _ => .errorName
  | .replySerial _ => .replySerial
  | .destination _ => .destination
  | .sender _ => .sender
  | .signature _ => .signature
  | .unixFDs _ => .unixFDs

/-- A collection of `MessageField` instances (the capacity pre-reservation
of the source has no observable effect on contents). -/
structure MessageFields where
  fields : List MessageField
deriving DecidableEq, Repr

/-- `MessageFields::new` / `Default`: empty. -/
def MessageFields.new : MessageFields := ⟨[]⟩

/-- `MessageFields::add`: appends unconditionally. -/
def MessageFields.add (mf : MessageFields) (field : MessageField) : MessageFields :=
  ⟨mf.fields ++ [field]⟩

/-- The loop of `MessageFields::replace`: find the first entry with the
given code and swap the new entry in, returning the displaced entry;
append if no entry matches. -/
def replaceFirst (code : MessageFieldCode) (field : MessageField) :
    List MessageField → List MessageField × Option MessageField
  | [] => ([field], none)
  | f :: rest =>
    if f.code = code then
      (field :: rest, some f)
    else
      let r := replaceFirst code field rest
      (f :: r.1, r.2)

/-- `MessageFields::replace`. -/
def MessageFields.replace (mf : MessageFields) (field : MessageField) :
    MessageFields × Option MessageField :=
  let r := replaceFirst field.code field mf.fields
  (⟨r.1⟩, r.2)

/-- `MessageFields::get`: all fields, in order. -/
def MessageFields.get (mf : MessageFields) : List MessageField :=
  mf.fields

/-- `MessageFields::get_field`: first entry with a matching code. -/
def MessageFields.get_field (mf : MessageFields) (code : MessageFieldCode) :
    Option MessageField :=
  mf.fields.find? (fun f => decide (f.code = code))

/-- The loop of `MessageFields::into_field`. -/
def intoFieldList (code : MessageFieldCode) : List MessageField → Option MessageField
  | [] => none
  | f :: rest => if f.code = code then some f else intoFieldList code rest

/-- `MessageFields::into_field`: consumes the collection, returns the first
entry with a matching code. -/
def MessageFields.into_field (mf : MessageFields) (code : MessageFieldCode) :
    Option MessageField :=
  intoFieldList code mf.fields

/-- Modelled from the spec: a strongly typed text-backed header value
(`ObjectPath` / `InterfaceName` / `MemberName`, external to the file under
study).  Each such type wraps a borrowed text view (`Deref<Target = str>`)
and is rebuilt from text by `TryFrom<&str>`, which revalidates the text's
syntax and on success wraps the very same borrowed view. -/
structure TypedName where
  view : StrView
deriving DecidableEq, Repr

/-- Modelled from the spec: the shape of one external `TryFrom<&str>`
conversion — a syntax validity check on the bytes, and the error produced
when it fails ("text is valid but does not parse into the target typed
value ... propagated to the caller as a normal error result"). -/
structure NameType (ε : Type) where
  valid : List Nat → Bool
  convErr : ε

/-- Modelled from the spec: `T::try_from(&str)` for a typed name —
validate the text, and on success wrap the same borrowed view. -/
def tryFromName {ε : Type} (nt : NameType ε) (s : StrView) : Except ε TypedName :=
  if nt.valid s.bytes then .ok ⟨s⟩ else .error nt.convErr

/-- Modelled from the spec: the decoded message header (`MessageHeader`,
external to the file under study), exposing "borrowed optional views of
path/interface/member as text-like values, and an optional
reply-correlation integer, each of which may itself fail (propagated
as-is)".  Each accessor is modelled by its result. -/
structure MessageHeader (ε : Type) where
  pathF : Except ε (Option TypedName)
  interfaceF : Except ε (Option TypedName)
  memberF : Except ε (Option TypedName)
  replySerialF : Except ε (Option Nat)

/-- Modelled from the spec: the owning `Message` (external to the file
under study): read access to its raw byte buffer (`as_bytes`) and to its
decoded header (`header()`, which may fail). -/
structure Message (ε : Type) where
  buf : ByteBuf
  header : Except ε (MessageHeader ε)

/-- A cache of some commonly-used fields of the header of a Message. -/
structure QuickMessageFields where
  pathPos : FieldPos
  interfacePos : FieldPos
  memberPos : FieldPos
  reply_serialField : Option (Option Nat)
deriving DecidableEq, Repr

/-- `QuickMessageFields::new`: captures a `FieldPos` for each hot field
from the header's borrowed views over `buf` (deref to `&str` is
`TypedName.view`), and the reply-serial eagerly; each `?` propagates the
header accessor's failure. -/
def QuickMessageFields.new {ε : Type} (buf : ByteBuf) (header : MessageHeader ε) :
    Except ε QuickMessageFields :=
  match header.pathF with
  | .error e => .error e
  | .ok p =>
    match header.interfaceF with
    | .error e => .error e
    | .ok i =>
      match header.memberF with
      | .error e => .error e
      | .ok m =>
        match header.replySerialF with
        | .error e => .error e
        | .ok rs =>
          .ok ⟨FieldPos.new buf (p.map TypedName.view),
               FieldPos.new buf (i.map TypedName.view),
               FieldPos.new buf (m.map TypedName.view),
               some rs⟩

/-- The fallback closure of `QuickMessageFields::path`:
`Ok(msg.header()?.path()?.cloned())`. -/
def QuickMessageFields.pathFallback {ε : Type} (msg : Message ε) :
    Except ε (Option TypedName) :=
  match msg.header with
  | .error e => .error e
  | .ok h => h.pathF

/-- The fallback closure of `QuickMessageFields::interface`. -/
def QuickMessageFields.interfaceFallback {ε : Type} (msg : Message ε) :
    Except ε (Option TypedName) :=
  match msg.header with
  | .error e => .error e
  | .ok h => h.interfaceF

/-- The fallback closure of `QuickMessageFields::member`. -/
def QuickMessageFields.memberFallback {ε : Type} (msg : Message ε) :
    Except ε (Option TypedName) :=
  match msg.header with
  | .error e => .error e
  | .ok h => h.memberF

/-- `QuickMessageFields::path`: read the cached position against the
message's buffer, with the live header lookup as fallback.  `nt` is the
external `TryFrom<&str>` instance for the target type. -/
def QuickMessageFields.path {ε : Type} (q : QuickMessageFields) (nt : NameType ε)
    (msg : Message ε) : ReadResult ε TypedName × ReadTrace :=
  q.pathPos.read msg.buf (tryFromName nt) (QuickMessageFields.pathFallback msg)

/-- `QuickMessageFields::interface`. -/
def QuickMessageFields.interface {ε : Type} (q : QuickMessageFields) (nt : NameType ε)
    (msg : Message ε) : ReadResult ε TypedName × ReadTrace :=
  q.interfacePos.read msg.buf (tryFromName nt) (QuickMessageFields.interfaceFallback msg)

/-- `QuickMessageFields::member`. -/
def QuickMessageFields.member {ε : Type} (q : QuickMessageFields) (nt : NameType ε)
    (msg : Message ε) : ReadResult ε TypedName × ReadTrace :=
  q.memberPos.read msg.buf (tryFromName nt) (QuickMessageFields.memberFallback msg)

/-- `QuickMessageFields::reply_serial`: cached value if resolved, else one
live header lookup. -/
def QuickMessageFields.reply_serial {ε : Type} (q : QuickMessageFields)
    (msg : Message ε) : Except ε (Option Nat) :=
  match q.reply_serialField with
  | some v => .ok v
  | none =>
    match msg.header with
    | .error e => .error e
    | .ok h => h.replySerialF

/-- The view `v` genuinely aliases the buffer `b`: it starts at or past the
buffer's base address and its bytes are exactly the buffer's bytes at the
corresponding offsets. -/
def StrView.aliases (v : StrView) (b : ByteBuf) : Prop :=
  b.addr ≤ v.addr ∧
  v.addr - b.addr + v.bytes.length ≤ b.data.length ∧
  slice b.data (v.addr - b.addr) (v.addr - b.addr + v.bytes.length) = v.bytes

instance (v : StrView) (b : ByteBuf) : Decidable (v.aliases b) := by
  unfold StrView.aliases; infer_instance

/-! ## Helper lemmas -/

theorem toU32?_pos {n : Nat} (h : n < 2 ^ 32) : toU32? n = some n := if_pos h

theorem toU32?_neg {n : Nat} (h : ¬ n < 2 ^ 32) : toU32? n = none := if_neg h

theorem build_unfold (b : ByteBuf) (v : StrView) :
    FieldPos.build b v =
      (checked_sub v.addr b.addr).bind (fun offset =>
        if offset ≤ b.data.length ∧ offset + v.bytes.length ≤ b.data.length then
          (toU32? offset).bind (fun s =>
            (toU32? (offset + v.bytes.length)).bind (fun e =>
              some ⟨s, e⟩))
        else none) := rfl

/-- `build` succeeds exactly on an in-bounds, u32-representable offset
range, and then returns the range of the substring within the buffer. -/
theorem build_eq_some_iff (b : ByteBuf) (v : StrView) (p : FieldPos) :
    FieldPos.build b v = some p ↔
      b.addr ≤ v.addr ∧ v.addr - b.addr + v.bytes.length ≤ b.data.length ∧
      v.addr - b.addr < 2 ^ 32 ∧ v.addr - b.addr + v.bytes.length < 2 ^ 32 ∧
      p = ⟨v.addr - b.addr, v.addr - b.addr + v.bytes.length⟩ := by
  rw [build_unfold]
  by_cases h1 : b.addr ≤ v.addr
  · rw [show checked_sub v.addr b.addr = some (v.addr - b.addr) from if_pos h1]
    simp only [Option.some_bind]
    by_cases h2 : v.addr - b.addr + v.bytes.length ≤ b.data.length
    · have h2' : v.addr - b.addr ≤ b.data.length :=
        le_trans (Nat.le_add_right _ _) h2
      rw [if_pos (And.intro h2' h2)]
      by_cases h3 : v.addr - b.addr < 2 ^ 32
      · rw [toU32?_pos h3]
        simp only [Option.some_bind]
        by_cases h4 : v.addr - b.addr + v.bytes.length < 2 ^ 32
        · rw [toU32?_pos h4]
          simp only [Option.some_bind, Option.some.injEq]
          constructor
          · intro h; exact ⟨h1, h2, h3, h4, h.symm⟩
          · intro h; exact h.2.2.2.2.symm
        · rw [toU32?_neg h4]
          simp only [Option.none_bind]
          constructor
          · intro h; exact absurd h (by simp)
          · intro h; exact absurd h.2.2.2.1 h4
      · rw [toU32?_neg h3]
        simp only [Option.none_bind]
        constructor
        · intro h; exact absurd h (by simp)
        · intro h; exact absurd h.2.2.1 h3
    · rw [if_neg (fun hc => h2 hc.2)]
      constructor
      · intro h; exact absurd h (by simp)
      · intro h; exact absurd h.2.1 h2
  · rw [show checked_sub v.addr b.addr = none from if_neg h1]
    simp only [Option.none_bind]
    constructor
    · intro h; exact absurd h (by simp)
    · intro h; exact absurd h.1 h1

/-- `build` fails exactly when the substring's address precedes the
buffer's, the range exceeds the buffer's length, or an endpoint does not
fit in 32 bits. -/
theorem build_eq_none_iff (b : ByteBuf) (v : StrView) :
    FieldPos.build b v = none ↔
      (v.addr < b.addr ∨
       b.data.length < v.addr - b.addr + v.bytes.length ∨
       2 ^ 32 ≤ v.addr - b.addr ∨
       2 ^ 32 ≤ v.addr - b.addr + v.bytes.length) := by
  constructor
  · intro h
    by_contra hc
    push_neg at hc
    obtain ⟨hc1, hc2, hc3, hc4⟩ := hc
    have := (build_eq_some_iff b v ⟨v.addr - b.addr, v.addr - b.addr + v.bytes.length⟩).mpr
      ⟨hc1, hc2, hc3, hc4, rfl⟩
    rw [h] at this
    exact Option.noConfusion this
  · intro h
    cases hbuild : FieldPos.build b v with
    | none => rfl
    | some p =>
      have := (build_eq_some_iff b v p).mp hbuild
      obtain ⟨h1, h2, h3, h4, _⟩ := this
      rcases h with h | h | h | h
      · exact absurd h1 (not_le_of_lt h)
      · exact absurd h2 (not_le_of_lt h)
      · exact absurd h3 (not_lt_of_le h)
      · exact absurd h4 (not_lt_of_le h)

theorem read_unknown {ε τ : Type} (buf : ByteBuf) (conv : StrView → Except ε τ)
    (fb : Except ε (Option τ)) :
    FieldPos.read FieldPos.new_unknown buf conv fb = (liftExcept fb, ⟨1, 0⟩) := rfl

theorem read_not_present {ε τ : Type} (buf : ByteBuf) (conv : StrView → Except ε τ)
    (fb : Except ε (Option τ)) :
    FieldPos.read FieldPos.new_not_present buf conv fb = (.ok none, ⟨0, 0⟩) := rfl

/-- `read` on a non-sentinel position: bounds check, UTF-8 revalidation of
the slice, then conversion of the reconstructed view. -/
theorem read_range {ε τ : Type} (p : FieldPos) (h0 : p ≠ FieldPos.new_unknown)
    (h1 : p ≠ FieldPos.new_not_present) (buf : ByteBuf)
    (conv : StrView → Except ε τ) (fb : Except ε (Option τ)) :
    FieldPos.read p buf conv fb =
      if p.start ≤ p.stop ∧ p.stop ≤ buf.data.length then
        if validUtf8 (slice buf.data p.start p.stop) then
          (liftConv (conv ⟨buf.addr + p.start, slice buf.data p.start p.stop⟩), ⟨0, 1⟩)
        else (.utf8Fault, ⟨0, 1⟩)
      else (.sliceFault, ⟨0, 1⟩) := by
  obtain ⟨s, e⟩ := p
  match s, e with
  | 0, 0 => exact absurd rfl h0
  | 1, 0 => exact absurd rfl h1
  | 0, e + 1 =>
    show (if 0 ≤ e + 1 ∧ e + 1 ≤ buf.data.length then _ else _) = _
    split
    · by_cases hv : validUtf8 (slice buf.data 0 (e + 1)) = true
      · rw [show fromUtf8 (slice buf.data 0 (e + 1)) = some (slice buf.data 0 (e + 1)) from
          if_pos hv, if_pos hv]
      · rw [show fromUtf8 (slice buf.data 0 (e + 1)) = none from if_neg hv, if_neg hv]
    · rfl
  | 1, e + 1 =>
    show (if 1 ≤ e + 1 ∧ e + 1 ≤ buf.data.length then _ else _) = _
    split
    · by_cases hv : validUtf8 (slice buf.data 1 (e + 1)) = true
      · rw [show fromUtf8 (slice buf.data 1 (e + 1)) = some (slice buf.data 1 (e + 1)) from
          if_pos hv, if_pos hv]
      · rw [show fromUtf8 (slice buf.data 1 (e + 1)) = none from if_neg hv, if_neg hv]
    · rfl
  | s + 2, e =>
    show (if s + 2 ≤ e ∧ e ≤ buf.data.length then _ else _) = _
    split
    · by_cases hv : validUtf8 (slice buf.data (s + 2) e) = true
      · rw [show fromUtf8 (slice buf.data (s + 2) e) = some (slice buf.data (s + 2) e) from
          if_pos hv, if_pos hv]
      · rw [show fromUtf8 (slice buf.data (s + 2) e) = none from if_neg hv, if_neg hv]
    · rfl

/-! ## Claim theorems -/

/-- C4: `FieldPos.build` returns a failure value (`none`, not a panic)
exactly when the substring's address precedes the buffer's start, or the
computed offset plus the substring's length exceeds the buffer's length,
or the computed offset or end does not fit 32 bits; otherwise it returns
the offset range of the substring within the buffer. -/
theorem build_failure_iff (b : ByteBuf) (v : StrView) :
    (FieldPos.build b v = none ↔
      (v.addr < b.addr ∨
       b.data.length < v.addr - b.addr + v.bytes.length ∨
       2 ^ 32 ≤ v.addr - b.addr ∨
       2 ^ 32 ≤ v.addr - b.addr + v.bytes.length)) ∧
    (∀ p, FieldPos.build b v = some p →
      p = ⟨v.addr - b.addr, v.addr - b.addr + v.bytes.length⟩) := by
  refine ⟨build_eq_none_iff b v, fun p hp => ?_⟩
  exact ((build_eq_some_iff b v p).mp hp).2.2.2.2

/-- C6: a `FieldPos` derived from a real header field value (non-zero
offset into the buffer, non-empty) is distinct from both sentinel
encodings `(0, 0)` (unresolved) and `(1, 0)` (absent). -/
theorem real_range_ne_sentinels (b : ByteBuf) (v : StrView) (p : FieldPos)
    (hbuild : FieldPos.build b v = some p)
    (hoff : b.addr < v.addr) (hne : v.bytes ≠ []) :
    p ≠ FieldPos.new_unknown ∧ p ≠ FieldPos.new_not_present := by
  obtain ⟨h1, h2, h3, h4, hp⟩ := (build_eq_some_iff b v p).mp hbuild
  subst hp
  have hlen : 0 < v.bytes.length := List.length_pos.mpr hne
  constructor
  · intro h
    have hs : v.addr - b.addr = 0 := congrArg FieldPos.start h
    omega
  · intro h
    have hs : v.addr - b.addr = 1 := congrArg FieldPos.start h
    have he : v.addr - b.addr + v.bytes.length = 0 := congrArg FieldPos.stop h
    omega

/-- C6 at a concrete input. -/
theorem real_range_ne_sentinels_witness :
    (⟨1, 2⟩ : FieldPos) ≠ FieldPos.new_unknown ∧
    (⟨1, 2⟩ : FieldPos) ≠ FieldPos.new_not_present :=
  real_range_ne_sentinels ⟨0, [104, 105]⟩ ⟨1, [105]⟩ ⟨1, 2⟩ (by decide) (by decide) (by decide)

/-- C10: a successful `build` yields `start ≤ stop`, so never the absent
sentinel `(1, 0)`; it yields the unresolved sentinel `(0, 0)` exactly for
an empty substring at the buffer's very start, and that position is read
via the fallback rather than from the cached range. -/
theorem build_range_sentinel_discipline (b : ByteBuf) (v : StrView) :
    (∀ p, FieldPos.build b v = some p →
        p.start ≤ p.stop ∧ p ≠ FieldPos.new_not_present) ∧
    (FieldPos.build b v = some FieldPos.new_unknown ↔
        (v.addr = b.addr ∧ v.bytes = [])) ∧
    (∀ (ε τ : Type) (buf : ByteBuf) (conv : StrView → Except ε τ)
        (fb : Except ε (Option τ)),
        FieldPos.read FieldPos.new_unknown buf conv fb = (liftExcept fb, ⟨1, 0⟩)) := by
  refine ⟨fun p hp => ?_, ⟨?_, ?_⟩, fun ε τ buf conv fb => read_unknown buf conv fb⟩
  · obtain ⟨h1, h2, h3, h4, hp⟩ := (build_eq_some_iff b v p).mp hp
    subst hp
    refine ⟨Nat.le_add_right _ _, fun h => ?_⟩
    have hs : v.addr - b.addr = 1 := congrArg FieldPos.start h
    have he : v.addr - b.addr + v.bytes.length = 0 := congrArg FieldPos.stop h
    omega
  · intro h
    obtain ⟨h1, h2, h3, h4, hp⟩ := (build_eq_some_iff b v FieldPos.new_unknown).mp h
    have hs : (0 : Nat) = v.addr - b.addr := congrArg FieldPos.start hp
    have he : (0 : Nat) = v.addr - b.addr + v.bytes.length := congrArg FieldPos.stop hp
    constructor
    · omega
    · exact List.length_eq_zero.mp (by omega)
  · rintro ⟨ha, hb⟩
    refine (build_eq_some_iff b v FieldPos.new_unknown).mpr ?_
    rw [ha, hb]
    simp [FieldPos.new_unknown]

/-- C5: when `build` fails on a present optional field, `FieldPos::new`
returns the unresolved state (not absent), and reading an unresolved
position invokes the fallback exactly once and returns its result
unchanged, errors included. -/
theorem build_failure_gives_unresolved_fallback (b : ByteBuf) (v : StrView)
    (hfail : FieldPos.build b v = none) :
    FieldPos.new b (some v) = FieldPos.new_unknown ∧
    FieldPos.new b (some v) ≠ FieldPos.new_not_present ∧
    (∀ (ε τ : Type) (buf : ByteBuf) (conv : StrView → Except ε τ)
        (fb : Except ε (Option τ)),
        FieldPos.read (FieldPos.new b (some v)) buf conv fb = (liftExcept fb, ⟨1, 0⟩)) := by
  have hnew : FieldPos.new b (some v) = FieldPos.new_unknown := by
    simp [FieldPos.new, hfail]
  refine ⟨hnew, ?_, fun ε τ buf conv fb => ?_⟩
  · rw [hnew]; decide
  · rw [hnew]; exact read_unknown buf conv fb

/-- C5 at a concrete input. -/
theorem build_failure_gives_unresolved_fallback_witness :
    FieldPos.new ⟨5, [1]⟩ (some ⟨0, []⟩) = FieldPos.new_unknown ∧
    FieldPos.new ⟨5, [1]⟩ (some ⟨0, []⟩) ≠ FieldPos.new_not_present ∧
    (∀ (ε τ : Type) (buf : ByteBuf) (conv : StrView → Except ε τ)
        (fb : Except ε (Option τ)),
        FieldPos.read (FieldPos.new ⟨5, [1]⟩ (some ⟨0, []⟩)) buf conv fb
          = (liftExcept fb, ⟨1, 0⟩)) :=
  build_failure_gives_unresolved_fallback ⟨5, [1]⟩ ⟨0, []⟩ (by decide)

/-- C3: a position constructed from an absent optional field reads as
empty (`Ok(None)`) for every buffer and fallback, with zero buffer access
and no fallback invocation; in particular the interface accessor of a
cache built from a message lacking an interface field returns empty
without invoking the fallback path. -/
theorem absent_read_is_empty {ε τ : Type} (b buf : ByteBuf) (header : MessageHeader ε)
    (q : QuickMessageFields) (msg : Message ε) (nt : NameType ε)
    (conv : StrView → Except ε τ) (fb : Except ε (Option τ))
    (hi : header.interfaceF = .ok none)
    (hq : QuickMessageFields.new b header = .ok q) :
    FieldPos.new b none = FieldPos.new_not_present ∧
    FieldPos.read (FieldPos.new b none) buf conv fb = (.ok none, ⟨0, 0⟩) ∧
    q.interface nt msg = (.ok none, ⟨0, 0⟩) := by
  refine ⟨rfl, read_not_present buf conv fb, ?_⟩
  cases hp : header.pathF with
  | error e => rw [QuickMessageFields.new, hp] at hq; exact Except.noConfusion hq
  | ok pf =>
    cases hm : header.memberF with
    | error e =>
      rw [QuickMessageFields.new, hp, hi, hm] at hq; exact Except.noConfusion hq
    | ok mf =>
      cases hrs : header.replySerialF with
      | error e =>
        rw [QuickMessageFields.new, hp, hi, hm, hrs] at hq; exact Except.noConfusion hq
      | ok rs =>
        rw [QuickMessageFields.new, hp, hi, hm, hrs] at hq
        simp only [Except.ok.injEq] at hq
        subst hq
        exact read_not_present msg.buf (tryFromName nt)
          (QuickMessageFields.interfaceFallback msg)

/-- C3 at a concrete input. -/
theorem absent_read_is_empty_witness :
    FieldPos.new ⟨0, []⟩ none = FieldPos.new_not_present ∧
    FieldPos.read (FieldPos.new ⟨0, []⟩ none) ⟨0, []⟩
        (tryFromName ⟨fun _ => true, (0 : Nat)⟩) (.error 3) = (.ok none, ⟨0, 0⟩) ∧
    QuickMessageFields.interface ⟨⟨1, 0⟩, ⟨1, 0⟩, ⟨1, 0⟩, some none⟩
        ⟨fun _ => true, (0 : Nat)⟩
        ⟨⟨0, []⟩, .ok ⟨.ok none, .ok none, .ok none, .ok none⟩⟩ = (.ok none, ⟨0, 0⟩) :=
  absent_read_is_empty ⟨0, []⟩ ⟨0, []⟩ ⟨.ok none, .ok none, .ok none, .ok none⟩
    ⟨⟨1, 0⟩, ⟨1, 0⟩, ⟨1, 0⟩, some none⟩
    ⟨⟨0, []⟩, .ok ⟨.ok none, .ok none, .ok none, .ok none⟩⟩
    ⟨fun _ => true, (0 : Nat)⟩ (tryFromName ⟨fun _ => true, (0 : Nat)⟩) (.error 3)
    rfl rfl

theorem replaceFirst_spec (code : MessageFieldCode) (field : MessageField)
    (l : List MessageField) :
    (∃ pre x post, l = pre ++ x :: post ∧ (∀ y ∈ pre, y.code ≠ code) ∧ x.code = code ∧
        (replaceFirst code field l).1 = pre ++ field :: post ∧
        (replaceFirst code field l).2 = some x) ∨
    ((∀ y ∈ l, y.code ≠ code) ∧ replaceFirst code field l = (l ++ [field], none)) := by
  induction l with
  | nil => right; exact ⟨by simp, rfl⟩
  | cons f rest ih =>
    by_cases hf : f.code = code
    · left
      exact ⟨[], f, rest, by simp, by simp, hf,
        by simp [replaceFirst, hf], by simp [replaceFirst, hf]⟩
    · rcases ih with ⟨pre, x, post, hl, hpre, hx, h1, h2⟩ | ⟨hall, heq⟩
      · left
        refine ⟨f :: pre, x, post, by simp [hl], ?_, hx,
          by simp [replaceFirst, hf, h1], by simp [replaceFirst, hf, h2]⟩
        intro y hy
        rcases List.mem_cons.mp hy with rfl | hy
        · exact hf
        · exact hpre y hy
      · right
        refine ⟨?_, by simp [replaceFirst, hf, heq]⟩
        intro y hy
        rcases List.mem_cons.mp hy with rfl | hy
        · exact hf
        · exact hall y hy

/-- C8: `replace` scans for the first entry with the same field code; if
one exists it is swapped in place (position and collection length
unchanged, entries after it untouched) and the displaced entry is
returned; otherwise the entry is appended exactly as `add` would do and
none is returned. -/
theorem replace_first_match (mf : MessageFields) (field : MessageField) :
    (∃ pre x post, mf.fields = pre ++ x :: post ∧
        (∀ y ∈ pre, y.code ≠ field.code) ∧ x.code = field.code ∧
        (mf.replace field).1.fields = pre ++ field :: post ∧
        (mf.replace field).2 = some x ∧
        (mf.replace field).1.fields.length = mf.fields.length) ∨
    ((∀ y ∈ mf.fields, y.code ≠ field.code) ∧
        mf.replace field = (mf.add field, none)) := by
  rcases replaceFirst_spec field.code field mf.fields with
    ⟨pre, x, post, hl, hpre, hx, h1, h2⟩ | ⟨hall, heq⟩
  · left
    refine ⟨pre, x, post, hl, hpre, hx, ?_, ?_, ?_⟩
    · show (replaceFirst field.code field mf.fields).1 = _
      exact h1
    · show (replaceFirst field.code field mf.fields).2 = _
      exact h2
    · show (replaceFirst field.code field mf.fields).1.length = _
      rw [h1, hl]; simp
  · right
    refine ⟨hall, ?_⟩
    show MessageFields.replace mf field = (mf.add field, none)
    simp only [MessageFields.replace, heq, MessageFields.add]

/-- C9: `add` appends unconditionally, so duplicate field codes coexist:
after adding two same-code entries to an empty collection the length is
2, `get` returns both in insertion order, and `get_field` / `into_field`
return only the first. -/
theorem add_permits_duplicate_codes (f1 f2 : MessageField) (hcode : f1.code = f2.code) :
    ((MessageFields.new.add f1).add f2).get = [f1, f2] ∧
    ((MessageFields.new.add f1).add f2).get.length = 2 ∧
    ((MessageFields.new.add f1).add f2).get_field f1.code = some f1 ∧
    ((MessageFields.new.add f1).add f2).into_field f1.code = some f1 := by
  refine ⟨rfl, rfl, ?_, ?_⟩
  · simp [MessageFields.get_field, MessageFields.new, MessageFields.add, MessageFields.get]
  · simp [MessageFields.into_field, MessageFields.new, MessageFields.add, intoFieldList]

/-- C9 at a concrete input. -/
theorem add_permits_duplicate_codes_witness :
    ((MessageFields.new.add (.replySerial 42)).add (.replySerial 43)).get
        = [.replySerial 42, .replySerial 43] ∧
    ((MessageFields.new.add (.replySerial 42)).add (.replySerial 43)).get.length = 2 ∧
    ((MessageFields.new.add (.replySerial 42)).add (.replySerial 43)).get_field
        (MessageField.replySerial 42).code = some (.replySerial 42) ∧
    ((MessageFields.new.add (.replySerial 42)).add (.replySerial 43)).into_field
        (MessageField.replySerial 42).code = some (.replySerial 42) :=
  add_permits_duplicate_codes (.replySerial 42) (.replySerial 43) (by decide)

theorem replicate_drop (a : Nat) : ∀ n k, (List.replicate n a).drop k = List.replicate (n - k) a := by
  intro n
  induction n with
  | zero => intro k; simp
  | succ m ih =>
    intro k
    cases k with
    | zero => simp
    | succ j => simpa [List.replicate_succ] using ih j

theorem replicate_take (a : Nat) : ∀ n k, (List.replicate n a).take k = List.replicate (min k n) a := by
  intro n
  induction n with
  | zero => intro k; simp
  | succ m ih =>
    intro k
    cases k with
    | zero => simp
    | succ j =>
      simp only [List.replicate_succ, List.take_succ_cons, ih j]
      rw [show min (j + 1) (m + 1) = min j m + 1 from by omega, List.replicate_succ]

/-- C2, as stated, fails: a non-empty text field at a non-zero offset,
genuinely located inside the buffer, for which `build` does not succeed —
the buffer is 2^32 bytes long and the range's end does not fit the 32-bit
position width. -/
theorem build_roundtrip_counterexample :
    StrView.aliases ⟨2 ^ 32 - 1, [0]⟩ ⟨0, List.replicate (2 ^ 32) 0⟩ ∧
    0 < (⟨2 ^ 32 - 1, [0]⟩ : StrView).addr - (⟨0, List.replicate (2 ^ 32) 0⟩ : ByteBuf).addr ∧
    (⟨2 ^ 32 - 1, [0]⟩ : StrView).bytes ≠ [] ∧
    validUtf8 (⟨2 ^ 32 - 1, [0]⟩ : StrView).bytes = true ∧
    FieldPos.build ⟨0, List.replicate (2 ^ 32) 0⟩ ⟨2 ^ 32 - 1, [0]⟩ = none := by
  refine ⟨⟨Nat.zero_le _, ?_, ?_⟩, by norm_num, by simp, by decide, ?_⟩
  · simp only [List.length_replicate, List.length_cons, List.length_nil]
    omega
  · show slice (List.replicate (2 ^ 32) 0) (2 ^ 32 - 1 - 0) (2 ^ 32 - 1 - 0 + 1) = [0]
    unfold slice
    rw [replicate_drop, replicate_take]
    rw [show 2 ^ 32 - 1 - 0 + 1 - (2 ^ 32 - 1 - 0) = 1 from by omega,
        show 2 ^ 32 - (2 ^ 32 - 1 - 0) = 1 from by omega]
    simp
  · rw [build_eq_none_iff]
    right; right; right
    simp only [List.length_cons, List.length_nil]
    omega

/-- `read_range`, phrased on the two endpoints. -/
theorem read_range' {ε τ : Type} (s e : Nat) (h0 : ¬(s = 0 ∧ e = 0)) (h1 : ¬(s = 1 ∧ e = 0))
    (buf : ByteBuf) (conv : StrView → Except ε τ) (fb : Except ε (Option τ)) :
    FieldPos.read ⟨s, e⟩ buf conv fb =
      if s ≤ e ∧ e ≤ buf.data.length then
        if validUtf8 (slice buf.data s e) then
          (liftConv (conv ⟨buf.addr + s, slice buf.data s e⟩), ⟨0, 1⟩)
        else (.utf8Fault, ⟨0, 1⟩)
      else (.sliceFault, ⟨0, 1⟩) :=
  read_range ⟨s, e⟩ (fun h => h0 ⟨congrArg FieldPos.start h, congrArg FieldPos.stop h⟩)
    (fun h => h1 ⟨congrArg FieldPos.start h, congrArg FieldPos.stop h⟩) buf conv fb

/-- C2 amended: for a text field located at a known position in the
buffer (non-zero offset, non-empty), provided additionally that the
range's end fits the position's 32-bit width, `build` succeeds and a
subsequent `read` of the resulting position against the same buffer
returns a value equal to the original field value. -/
theorem build_read_roundtrip (b : ByteBuf) (v : StrView)
    (hal : v.aliases b) (hoff : b.addr < v.addr) (hne : v.bytes ≠ [])
    (hutf : validUtf8 v.bytes = true)
    (hfit : v.addr - b.addr + v.bytes.length < 2 ^ 32) :
    ∃ p, FieldPos.build b v = some p ∧
      ∀ (ε : Type) (fb : Except ε (Option StrView)),
        (FieldPos.read p b (fun s => Except.ok s) fb).1 = .ok (some v) := by
  obtain ⟨hle, hbound, hslice⟩ := hal
  have hlen : 0 < v.bytes.length := List.length_pos.mpr hne
  have h3 : v.addr - b.addr < 2 ^ 32 := by omega
  refine ⟨⟨v.addr - b.addr, v.addr - b.addr + v.bytes.length⟩,
    (build_eq_some_iff b v _).mpr ⟨hle, hbound, h3, hfit, rfl⟩, fun ε fb => ?_⟩
  rw [read_range' _ _ (fun h => by omega) (fun h => by omega) b _ fb]
  rw [if_pos ⟨Nat.le_add_right _ _, hbound⟩, hslice, if_pos hutf]
  simp only [liftConv]
  rw [Nat.add_sub_cancel' hle]

/-- C2 amended, at a concrete input. -/
theorem build_read_roundtrip_witness :
    ∃ p, FieldPos.build ⟨100, [47, 97]⟩ ⟨101, [97]⟩ = some p ∧
      ∀ (ε : Type) (fb : Except ε (Option StrView)),
        (FieldPos.read p ⟨100, [47, 97]⟩ (fun s => Except.ok s) fb).1
          = .ok (some ⟨101, [97]⟩) :=
  build_read_roundtrip ⟨100, [47, 97]⟩ ⟨101, [97]⟩ (by decide) (by decide) (by decide)
    (by decide) (by decide)

/-- C7: for a `FieldPos` successfully produced by `build` from a
substring that is valid text genuinely located within the buffer, a
subsequent `read` against that buffer never faults: the slice indices are
within bounds, the UTF-8 revalidation cannot fail, and only the final
typed conversion may return an error. -/
theorem read_of_built_never_faults {ε τ : Type} (b : ByteBuf) (v : StrView) (p : FieldPos)
    (hbuild : FieldPos.build b v = some p)
    (hal : v.aliases b) (hutf : validUtf8 v.bytes = true)
    (conv : StrView → Except ε τ) (fb : Except ε (Option τ)) :
    p.start ≤ p.stop ∧ p.stop ≤ b.data.length ∧
    (FieldPos.read p b conv fb).1 ≠ .sliceFault ∧
    (FieldPos.read p b conv fb).1 ≠ .utf8Fault ∧
    (p ≠ FieldPos.new_unknown →
      ∀ e : ε, (FieldPos.read p b conv fb).1 = .err e → conv ⟨v.addr, v.bytes⟩ = .error e) := by
  obtain ⟨hle, hbound, h3, h4, hp⟩ := (build_eq_some_iff b v p).mp hbuild
  obtain ⟨hle', hbound', hslice⟩ := hal
  subst hp
  refine ⟨Nat.le_add_right _ _, hbound, ?_⟩
  by_cases hz : v.addr - b.addr = 0 ∧ v.bytes.length = 0
  · have hp0 : (⟨v.addr - b.addr, v.addr - b.addr + v.bytes.length⟩ : FieldPos)
        = FieldPos.new_unknown := by
      rw [hz.1, hz.2]
      rfl
    rw [hp0, read_unknown]
    refine ⟨?_, ?_, fun hne => absurd rfl hne⟩
    · cases fb <;> simp [liftExcept]
    · cases fb <;> simp [liftExcept]
  · rw [read_range' _ _ (fun h => hz ⟨h.1, by omega⟩) (fun h => by omega) b conv fb]
    rw [if_pos ⟨Nat.le_add_right _ _, hbound⟩, hslice, if_pos hutf]
    have haddr : b.addr + (v.addr - b.addr) = v.addr := Nat.add_sub_cancel' hle
    rw [haddr]
    refine ⟨?_, ?_, fun _ e he => ?_⟩
    · cases hc : conv ⟨v.addr, v.bytes⟩ <;> simp [liftConv, hc]
    · cases hc : conv ⟨v.addr, v.bytes⟩ <;> simp [liftConv, hc]
    · revert he
      cases hc : conv ⟨v.addr, v.bytes⟩ <;> simp [liftConv, hc]

/-- C7 at a concrete input. -/
theorem read_of_built_never_faults_witness :
    (⟨1, 2⟩ : FieldPos).start ≤ (⟨1, 2⟩ : FieldPos).stop ∧
    (⟨1, 2⟩ : FieldPos).stop ≤ (⟨100, [47, 97]⟩ : ByteBuf).data.length ∧
    (FieldPos.read (⟨1, 2⟩ : FieldPos) ⟨100, [47, 97]⟩
        (tryFromName ⟨fun _ => true, (0 : Nat)⟩) (.ok none)).1 ≠ .sliceFault ∧
    (FieldPos.read (⟨1, 2⟩ : FieldPos) ⟨100, [47, 97]⟩
        (tryFromName ⟨fun _ => true, (0 : Nat)⟩) (.ok none)).1 ≠ .utf8Fault ∧
    ((⟨1, 2⟩ : FieldPos) ≠ FieldPos.new_unknown →
      ∀ e : Nat, (FieldPos.read (⟨1, 2⟩ : FieldPos) ⟨100, [47, 97]⟩
          (tryFromName ⟨fun _ => true, (0 : Nat)⟩) (.ok none)).1 = .err e →
        tryFromName ⟨fun _ => true, (0 : Nat)⟩ ⟨101, [97]⟩ = .error e) :=
  read_of_built_never_faults ⟨100, [47, 97]⟩ ⟨101, [97]⟩ ⟨1, 2⟩ (by decide) (by decide)
    (by decide) (tryFromName ⟨fun _ => true, (0 : Nat)⟩) (.ok none)

/-- Cached read of a hot field equals the fallback's result, when the
field's typed value genuinely views valid text inside the buffer and the
fallback reproduces that value. -/
theorem new_read_eq_fallback {ε : Type} (b : ByteBuf) (tv : TypedName) (nt : NameType ε)
    (hal : tv.view.aliases b) (hutf : validUtf8 tv.view.bytes = true)
    (hv : nt.valid tv.view.bytes = true) (fb : Except ε (Option TypedName))
    (hfb : fb = .ok (some tv)) :
    (FieldPos.read (FieldPos.new b (some tv.view)) b (tryFromName nt) fb).1
      = liftExcept fb := by
  obtain ⟨hle, hbound, hslice⟩ := hal
  cases hbuild : FieldPos.build b tv.view with
  | none =>
    have : FieldPos.new b (some tv.view) = FieldPos.new_unknown := by
      simp [FieldPos.new, hbuild]
    rw [this, read_unknown]
  | some p =>
    have hnew : FieldPos.new b (some tv.view) = p := by
      simp [FieldPos.new, hbuild]
    obtain ⟨_, _, h3, h4, hp⟩ := (build_eq_some_iff b tv.view p).mp hbuild
    subst hp
    rw [hnew]
    by_cases hz : tv.view.addr - b.addr = 0 ∧ tv.view.bytes.length = 0
    · have hp0 : (⟨tv.view.addr - b.addr, tv.view.addr - b.addr + tv.view.bytes.length⟩
          : FieldPos) = FieldPos.new_unknown := by
        rw [hz.1, hz.2]
        rfl
      rw [hp0, read_unknown]
    · rw [read_range' _ _ (fun h => hz ⟨h.1, by omega⟩) (fun h => by omega) b _ fb]
      rw [if_pos ⟨Nat.le_add_right _ _, hbound⟩, hslice]
      rw [show tryFromName nt ⟨b.addr + (tv.view.addr - b.addr), tv.view.bytes⟩
            = .ok ⟨⟨b.addr + (tv.view.addr - b.addr), tv.view.bytes⟩⟩ from if_pos hv]
      rw [Nat.add_sub_cancel' hle, if_pos hutf, hfb]
      rfl

/-- C1: for a message whose header contains all three hot fields (their
typed values genuinely viewing valid text inside the message's buffer),
each accessor of a cache built from that message's buffer and header
returns a value equal to the full, uncached header lookup — the fallback
closure's result — on the same message. -/
theorem cache_accessors_eq_uncached_lookup {ε : Type} (msg : Message ε)
    (h : MessageHeader ε) (q : QuickMessageFields)
    (pv iv mv : TypedName) (rs : Option Nat)
    (ntp nti ntm : NameType ε)
    (hh : msg.header = .ok h)
    (hp : h.pathF = .ok (some pv))
    (hi : h.interfaceF = .ok (some iv))
    (hm : h.memberF = .ok (some mv))
    (hrs : h.replySerialF = .ok rs)
    (hq : QuickMessageFields.new msg.buf h = .ok q)
    (halp : pv.view.aliases msg.buf) (hutfp : validUtf8 pv.view.bytes = true)
    (hvp : ntp.valid pv.view.bytes = true)
    (hali : iv.view.aliases msg.buf) (hutfi : validUtf8 iv.view.bytes = true)
    (hvi : nti.valid iv.view.bytes = true)
    (halm : mv.view.aliases msg.buf) (hutfm : validUtf8 mv.view.bytes = true)
    (hvm : ntm.valid mv.view.bytes = true) :
    (q.path ntp msg).1 = liftExcept (QuickMessageFields.pathFallback msg) ∧
    (q.interface nti msg).1 = liftExcept (QuickMessageFields.interfaceFallback msg) ∧
    (q.member ntm msg).1 = liftExcept (QuickMessageFields.memberFallback msg) := by
  rw [QuickMessageFields.new, hp, hi, hm, hrs] at hq
  simp only [Except.ok.injEq] at hq
  subst hq
  have hfp : QuickMessageFields.pathFallback msg = .ok (some pv) := by
    simp [QuickMessageFields.pathFallback, hh, hp]
  have hfi : QuickMessageFields.interfaceFallback msg = .ok (some iv) := by
    simp [QuickMessageFields.interfaceFallback, hh, hi]
  have hfm : QuickMessageFields.memberFallback msg = .ok (some mv) := by
    simp [QuickMessageFields.memberFallback, hh, hm]
  refine ⟨?_, ?_, ?_⟩
  · show (FieldPos.read (FieldPos.new msg.buf ((some pv).map TypedName.view)) msg.buf
      (tryFromName ntp) (QuickMessageFields.pathFallback msg)).1 = _
    exact new_read_eq_fallback msg.buf pv ntp halp hutfp hvp _ hfp
  · show (FieldPos.read (FieldPos.new msg.buf ((some iv).map TypedName.view)) msg.buf
      (tryFromName nti) (QuickMessageFields.interfaceFallback msg)).1 = _
    exact new_read_eq_fallback msg.buf iv nti hali hutfi hvi _ hfi
  · show (FieldPos.read (FieldPos.new msg.buf ((some mv).map TypedName.view)) msg.buf
      (tryFromName ntm) (QuickMessageFields.memberFallback msg)).1 = _
    exact new_read_eq_fallback msg.buf mv ntm halm hutfm hvm _ hfm

/-- C1 at a concrete input. -/
theorem cache_accessors_eq_uncached_lookup_witness :
    (QuickMessageFields.path ⟨⟨0, 1⟩, ⟨1, 2⟩, ⟨2, 3⟩, some none⟩ ⟨fun _ => true, (0 : Nat)⟩
        ⟨⟨100, [47, 97, 98, 99]⟩, .ok ⟨.ok (some ⟨⟨100, [47]⟩⟩), .ok (some ⟨⟨101, [97]⟩⟩),
          .ok (some ⟨⟨102, [98]⟩⟩), .ok none⟩⟩).1
      = liftExcept (QuickMessageFields.pathFallback
        ⟨⟨100, [47, 97, 98, 99]⟩, .ok ⟨.ok (some ⟨⟨100, [47]⟩⟩), .ok (some ⟨⟨101, [97]⟩⟩),
          .ok (some ⟨⟨102, [98]⟩⟩), .ok none⟩⟩) ∧
    (QuickMessageFields.interface ⟨⟨0, 1⟩, ⟨1, 2⟩, ⟨2, 3⟩, some none⟩ ⟨fun _ => true, (0 : Nat)⟩
        ⟨⟨100, [47, 97, 98, 99]⟩, .ok ⟨.ok (some ⟨⟨100, [47]⟩⟩), .ok (some ⟨⟨101, [97]⟩⟩),
          .ok (some ⟨⟨102, [98]⟩⟩), .ok none⟩⟩).1
      = liftExcept (QuickMessageFields.interfaceFallback
        ⟨⟨100, [47, 97, 98, 99]⟩, .ok ⟨.ok (some ⟨⟨100, [47]⟩⟩), .ok (some ⟨⟨101, [97]⟩⟩),
          .ok (some ⟨⟨102, [98]⟩⟩), .ok none⟩⟩) ∧
    (QuickMessageFields.member ⟨⟨0, 1⟩, ⟨1, 2⟩, ⟨2, 3⟩, some none⟩ ⟨fun _ => true, (0 : Nat)⟩
        ⟨⟨100, [47, 97, 98, 99]⟩, .ok ⟨.ok (some ⟨⟨100, [47]⟩⟩), .ok (some ⟨⟨101, [97]⟩⟩),
          .ok (some ⟨⟨102, [98]⟩⟩), .ok none⟩⟩).1
      = liftExcept (QuickMessageFields.memberFallback
        ⟨⟨100, [47, 97, 98, 99]⟩, .ok ⟨.ok (some ⟨⟨100, [47]⟩⟩), .ok (some ⟨⟨101, [97]⟩⟩),
          .ok (some ⟨⟨102, [98]⟩⟩), .ok none⟩⟩) :=
  cache_accessors_eq_uncached_lookup
    ⟨⟨100, [47, 97, 98, 99]⟩, .ok ⟨.ok (some ⟨⟨100, [47]⟩⟩), .ok (some ⟨⟨101, [97]⟩⟩),
      .ok (some ⟨⟨102, [98]⟩⟩), .ok none⟩⟩
    ⟨.ok (some ⟨⟨100, [47]⟩⟩), .ok (some ⟨⟨101, [97]⟩⟩), .ok (some ⟨⟨102, [98]⟩⟩), .ok none⟩
    ⟨⟨0, 1⟩, ⟨1, 2⟩, ⟨2, 3⟩, some none⟩
    ⟨⟨100, [47]⟩⟩ ⟨⟨101, [97]⟩⟩ ⟨⟨102, [98]⟩⟩ none
    ⟨fun _ => true, (0 : Nat)⟩ ⟨fun _ => true, (0 : Nat)⟩ ⟨fun _ => true, (0 : Nat)⟩
    rfl rfl rfl rfl rfl rfl
    (by decide) (by decide) rfl
    (by decide) (by decide) rfl
    (by decide) (by decide) rfl

end Zbus
